import Mathlib

/-!
Shallow embedding of `src/main.py` (a FastAPI page monitor that polls a URL,
extracts "TAG ID" records from the fetched text with a regex, deduplicates
them against a SQLite table via a LIKE query, and serves them back).

Strings are modelled as `List Char`.  The Python regex
`TAG ID:\s*([^\s]+).+?----([\w\s]+)` (compiled without `re.DOTALL`) is
modelled by a direct-coded backtracking matcher with Python semantics:
the literal marker, a greedy whitespace skip, a greedy non-whitespace
token (backtracking from longest to shortest), a lazy gap `.+?` whose
characters may be anything except a newline, the literal `----`, and a
greedy run of word-or-whitespace characters.  `findall` is the leftmost,
non-overlapping scan that resumes after each match.  Character classes
are the ASCII fragments of Python's `\s` and `\w` (all inputs in the
repository and in the claims are ASCII).

The database (SQLAlchemy `PageContent` rows) is a list of rows; the
`content` column stores `str(entry)`, the Python `repr` of the parsed
dict — modelled by `strDict` below.  Wall-clock timestamps are abstracted
to a `Nat` counter.
-/

namespace PageMonitor

/-- ASCII fragment of Python's `\s` class (also the set stripped by `str.strip`). -/
def pyIsSpace (c : Char) : Bool :=
  c = ' ' || c = '\t' || c = '\n' || c = '\r' || c = '\x0b' || c = '\x0c'

/-- ASCII fragment of Python's `\w` class. -/
def pyIsWord (c : Char) : Bool :=
  c.isAlpha || c.isDigit || c = '_'

/-- Word-or-whitespace, the class `[\w\s]` of the message group. -/
def pyIsWordOrSpace (c : Char) : Bool :=
  pyIsWord c || pyIsSpace c

/-- Python `str.strip`: drop leading and trailing whitespace. -/
def trimList (l : List Char) : List Char :=
  ((l.dropWhile pyIsSpace).reverse.dropWhile pyIsSpace).reverse

/-- Match a literal: if `pat` is a prefix of `s`, return the remainder. -/
def dropLit : List Char → List Char → Option (List Char)
  | [], s => some s
  | _ :: _, [] => none
  | p :: ps, c :: cs => if c = p then dropLit ps cs else none

/-- After the lazy gap: the literal `----` followed by the greedy message
run `([\w\s]+)` (at least one character).  Returns the message group and
the remainder of the text. -/
def trySep (l : List Char) : Option (List Char × List Char) :=
  match dropLit ['-', '-', '-', '-'] l with
  | none => none
  | some l2 =>
    let msg := l2.takeWhile pyIsWordOrSpace
    if msg = [] then none else some (msg, l2.drop msg.length)

/-- The lazy gap `.+?` followed by `----([\w\s]+)`: consume at least one
character, none of which may be a newline (`.` without `re.DOTALL`), and
take the smallest gap after which the separator and message match. -/
def gapLoop : List Char → Option (List Char × List Char)
  | [] => none
  | c :: cs =>
    if c = '\n' then none
    else
      match trySep cs with
      | some r => some r
      | none => gapLoop cs

/-- Backtracking over the greedy token `([^\s]+)`: try keeping `t` characters
of the maximal non-whitespace run `tagMax` (longest first, down to one) and
match the rest of the pattern on what remains.  Returns (tag, message, rest). -/
def tagLoopAux (tagMax rest : List Char) : Nat → Option (List Char × List Char × List Char)
  | 0 => none
  | t + 1 =>
    match gapLoop (tagMax.drop (t + 1) ++ rest) with
    | some (msg, r) => some (tagMax.take (t + 1), msg, r)
    | none => tagLoopAux tagMax rest t

/-- Try to match the whole pattern anchored at the start of `s`:
`TAG ID:` then `\s*` then `([^\s]+)` (with backtracking) then the lazy gap,
separator and message.  Returns (tag group, message group, remainder). -/
def tryMatch (s : List Char) : Option (List Char × List Char × List Char) :=
  match dropLit "TAG ID:".data s with
  | none => none
  | some s1 =>
    let s2 := s1.dropWhile pyIsSpace
    let tagMax := s2.takeWhile (fun c => !pyIsSpace c)
    if tagMax = [] then none
    else tagLoopAux tagMax (s2.drop tagMax.length) tagMax.length

/-- The `re.findall` scan, also recording the start position of each match:
try to match at every position left to right, resume after the end of a
successful match.  The fuel is one more than the length of the text; every
step consumes at least one character (`tryMatch_facts` below), so the
fuel is never exhausted. -/
def findAllIdxAux : Nat → Nat → List Char → List (Nat × List Char × List Char)
  | 0, _, _ => []
  | _ + 1, _, [] => []
  | fuel + 1, p, c :: cs =>
    match tryMatch (c :: cs) with
    | some (tag, msg, rest) =>
      (p, tag, msg) :: findAllIdxAux fuel (p + ((c :: cs).length - rest.length)) rest
    | none => findAllIdxAux fuel (p + 1) cs

/-- All matches of the pattern in `s`, with their start positions. -/
def findAllIdx (s : List Char) : List (Nat × List Char × List Char) :=
  findAllIdxAux (s.length + 1) 0 s

/-- Model of `pattern.findall(content)`: the list of (tag, message) group pairs. -/
def findAll (s : List Char) : List (List Char × List Char) :=
  (findAllIdx s).map (fun x => x.2)

/-- A parsed record: the dict built by `parse_content`
(`id` is the 1-based position in the batch, `timestamp` the capture time). -/
structure Entry where
  id : Nat
  tag_id : List Char
  message : List Char
  timestamp : Nat
deriving DecidableEq, Repr

/-- Model of `parse_content(content)` from `src/main.py` (lines 80-94): run the regex,
and number the matches from 1; the message group is stripped.  The wall-clock
`datetime.now(...)` is abstracted into the parameter `now` (the code evaluates
it once per record; the claims do not depend on the clock values). -/
def parse_content (content : List Char) (now : Nat) : List Entry :=
  (findAll content).enum.map
    (fun p => { id := p.1 + 1, tag_id := p.2.1, message := trimList p.2.2, timestamp := now })

/-- A row of the `page_content` table (SQLAlchemy model `PageContent`). -/
structure PageContent where
  id : Nat
  content : List Char
  timestamp : Nat
deriving DecidableEq, Repr

/-- The single-quote character, kept out of string literals. -/
def qc : Char := Char.ofNat 39

/-- Fixed dict-repr fragment before the value of the key `id`. -/
def seg_id : List Char := [Char.ofNat 123, qc, 'i', 'd', qc, ':', ' ']

/-- Fixed dict-repr fragment between the `id` value and the `tag_id` value. -/
def seg_tag : List Char := [',', ' ', qc] ++ "tag_id".data ++ [qc, ':', ' ', qc]

/-- Fixed dict-repr fragment between the `tag_id` value and the `message` value. -/
def seg_msg : List Char := [qc, ',', ' ', qc] ++ "message".data ++ [qc, ':', ' ', qc]

/-- Fixed dict-repr fragment between the `message` value and the numeric
fields of the `datetime` repr. -/
def seg_ts : List Char :=
  [qc, ',', ' ', qc] ++ "timestamp".data ++ [qc, ':', ' '] ++ "datetime.datetime(".data

/-- Fixed tail of the dict repr: the `tzinfo` part of the `datetime` repr
(the pytz repr of the America/Sao_Paulo zone) and the closing braces. -/
def seg_tz : List Char :=
  ", tzinfo=<DstTzInfo ".data ++ [qc] ++ "America/Sao_Paulo".data ++ [qc]
    ++ " -03-1 day, 21:00:00 STD>)".data ++ [Char.ofNat 125]

/-- Decimal digits of `n`, via a structurally recursive accumulator
(the fuel `n + 1` always suffices since the argument shrinks by `/ 10`). -/
def natDigitsAux : Nat → Nat → List Char → List Char
  | 0, _, acc => acc
  | fuel + 1, n, acc =>
    if n < 10 then Nat.digitChar n :: acc
    else natDigitsAux fuel (n / 10) (Nat.digitChar (n % 10) :: acc)

/-- Decimal representation of a natural number. -/
def natDigits (n : Nat) : List Char := natDigitsAux (n + 1) n []

/-- Model of `str(entry)` for a parsed dict: the Python repr
`{'id': N, 'tag_id': 'T', 'message': 'M', 'timestamp': datetime.datetime(...)}`.
The numeric fields of the `datetime` repr (year, month, ... microsecond,
characters from digits, commas and blanks only) are abstracted into the one
counter `e.timestamp`; values are repr'd single-quoted (the repository
never stores a tag or message containing a quote character). -/
def strDict (e : Entry) : List Char :=
  seg_id ++ (natDigits e.id ++ (seg_tag ++ (e.tag_id ++ (seg_msg ++ (e.message
    ++ (seg_ts ++ (natDigits e.timestamp ++ seg_tz)))))))

/-- Does `p` occur at the start of `s`? -/
def startsWith : List Char → List Char → Bool
  | [], _ => true
  | _ :: _, [] => false
  | p :: ps, c :: cs => if p = c then startsWith ps cs else false

/-- Does `p` occur as a contiguous substring of `s`?  This models the SQL
`LIKE '%...%'` scan of the duplicate check (the interpolated tag contains no
SQL wildcard in any claim). -/
def containsSub (p : List Char) : List Char → Bool
  | [] => startsWith p []
  | c :: cs => startsWith p (c :: cs) || containsSub p cs

/-- The duplicate check in `save_content_to_db` (line 67):
`db.query(PageContent).filter(PageContent.content.like(f"%TAG ID: {tag}%")).first()`
is non-empty, i.e. some stored row's content contains `"TAG ID: " + tag`. -/
def exists_by_tag (db : List PageContent) (tag : List Char) : Bool :=
  db.any (fun e => containsSub ("TAG ID: ".data ++ tag) e.content)

/-- Model of `save_content_to_db(content)` (lines 57-77): parse the content, and for
each entry in order, skip it if the LIKE duplicate check fires against the
current table state, otherwise insert a row whose content is `str(entry)`
(committed immediately, so later entries of the same call see it).  Row ids
are assigned consecutively by the store. -/
def save_content_to_db (db : List PageContent) (content : List Char) (now : Nat) :
    List PageContent :=
  (parse_content content now).foldl
    (fun db e =>
      if exists_by_tag db e.tag_id then db
      else db ++ [{ id := db.length + 1, content := strDict e, timestamp := e.timestamp }])
    db

/-- The poller state: the `last_content` cache and the database. -/
structure MonitorState where
  last_content : List Char
  db : List PageContent
deriving DecidableEq, Repr

/-- One cycle of `monitor_page` (lines 45-48) on a completed fetch:
on status 200, strip the body; if the stripped body differs from the cached
`last_content`, update the cache and run `save_content_to_db`; otherwise do
nothing.  Non-200 responses change nothing. -/
def monitor_cycle (st : MonitorState) (status : Nat) (body : List Char) (now : Nat) :
    MonitorState :=
  if status = 200 then
    let content := trimList body
    if content ≠ st.last_content then
      { last_content := content, db := save_content_to_db st.db content now }
    else st
  else st

/-- An element of the JSON array returned by `GET /content`. -/
structure ContentItem where
  id : Nat
  content : List Char
  timestamp : Nat
deriving DecidableEq, Repr

/-- Model of `get_saved_content` (lines 103-122): read all rows; an empty table is
surfaced as an HTTP 404 error with detail "No content found", otherwise the
rows are returned in order. -/
def get_saved_content (db : List PageContent) : Except String (List ContentItem) :=
  if db = [] then Except.error "No content found"
  else Except.ok (db.map (fun e => { id := e.id, content := e.content, timestamp := e.timestamp }))

/-- Database states reachable from the empty table by runs of
`save_content_to_db`. -/
inductive Reachable : List PageContent → Prop
  | base : Reachable []
  | step (db : List PageContent) (c : List Char) (now : Nat) :
      Reachable db → Reachable (save_content_to_db db c now)

end PageMonitor

namespace PageMonitor

/-! ### Substring scan: basic theory -/

theorem startsWith_iff (p s : List Char) : startsWith p s = true ↔ ∃ r, s = p ++ r := by
  induction p generalizing s with
  | nil => simp [startsWith]
  | cons a ps ih =>
    cases s with
    | nil => simp [startsWith]
    | cons c cs =>
      constructor
      · intro hs
        have hac : a = c := by
          by_contra hne
          simp [startsWith, hne] at hs
        subst hac
        have hps : startsWith ps cs = true := by simpa [startsWith] using hs
        obtain ⟨r, rfl⟩ := (ih cs).mp hps
        exact ⟨r, rfl⟩
      · rintro ⟨r, hr⟩
        rw [List.cons_append] at hr
        injection hr with h1 h2
        subst h1
        simp [startsWith, (ih cs).mpr ⟨r, h2⟩]

theorem containsSub_iff (p s : List Char) :
    containsSub p s = true ↔ ∃ a b, s = a ++ (p ++ b) := by
  induction s with
  | nil =>
    simp only [containsSub, startsWith_iff]
    constructor
    · rintro ⟨r, h⟩
      exact ⟨[], r, h⟩
    · rintro ⟨a, b, h⟩
      rcases List.append_eq_nil.mp h.symm with ⟨rfl, h2⟩
      exact ⟨b, h⟩
  | cons c cs ih =>
    simp only [containsSub, Bool.or_eq_true, startsWith_iff, ih]
    constructor
    · rintro (⟨r, h⟩ | ⟨a, b, h⟩)
      · exact ⟨[], r, by simpa using h⟩
      · exact ⟨c :: a, b, by simp [h]⟩
    · rintro ⟨a, b, h⟩
      cases a with
      | nil => exact Or.inl ⟨b, by simpa using h⟩
      | cons a0 as =>
        simp only [List.cons_append, List.cons.injEq] at h
        exact Or.inr ⟨as, b, h.2⟩

theorem containsSub_mono (u p v s : List Char)
    (h : containsSub (u ++ (p ++ v)) s = true) : containsSub p s = true := by
  rw [containsSub_iff] at h ⊢
  obtain ⟨a, b, rfl⟩ := h
  exact ⟨a ++ u, v ++ b, by simp⟩

/-- Members of a `take` with a smaller bound are members of the larger `take`. -/
theorem mem_take_le {α : Type} {m n : Nat} (hmn : m ≤ n) (l : List α) :
    l.take m ⊆ l.take n := by
  intro c hc
  have h : l.take m = (l.take n).take m := by
    rw [List.take_take, Nat.min_eq_left hmn]
  exact List.take_subset _ _ (h ▸ hc)

/-- Members of `(t ++ b).take n` are in `t` or in `b.take n`. -/
theorem mem_take_append {α : Type} {c : α} {n : Nat} {t b : List α}
    (h : c ∈ (t ++ b).take n) : c ∈ t ∨ c ∈ b.take n := by
  rw [List.take_append_eq_append_take] at h
  rcases List.mem_append.mp h with h1 | h2
  · exact Or.inl (List.take_subset _ _ h1)
  · exact Or.inr (mem_take_le (Nat.sub_le _ _) b h2)

/-! ### Peeling lemmas: a substring scan skips a block that cannot host a hit -/

/-- If no character of `a` equals the head of the pattern, no occurrence can
start inside `a`. -/
theorem containsSub_append_head (x0 : Char) (ps a b : List Char)
    (h : ∀ c ∈ a, c ≠ x0) :
    containsSub (x0 :: ps) (a ++ b) = containsSub (x0 :: ps) b := by
  induction a with
  | nil => rfl
  | cons c t ih =>
    have hc : c ≠ x0 := h c (by simp)
    have ht : ∀ d ∈ t, d ≠ x0 := fun d hd => h d (by simp [hd])
    show (startsWith (x0 :: ps) (c :: (t ++ b)) || containsSub (x0 :: ps) (t ++ b)) = _
    have hs : startsWith (x0 :: ps) (c :: (t ++ b)) = false := by
      show (if x0 = c then startsWith ps (t ++ b) else false) = false
      rw [if_neg (Ne.symm hc)]
    rw [hs, Bool.false_or, ih ht]

theorem startsWith_two_idx1 (x1 x2 : Char) (l : List Char)
    (h : ∀ c ∈ l.take 2, c ≠ x2) : startsWith [x1, x2] l = false := by
  cases l with
  | nil => rfl
  | cons d ls =>
    show (if x1 = d then startsWith [x2] ls else false) = false
    by_cases h1 : x1 = d
    · rw [if_pos h1]
      cases ls with
      | nil => rfl
      | cons e ls2 =>
        show (if x2 = e then startsWith [] ls2 else false) = false
        have he : e ≠ x2 := h e (by simp [List.take])
        rw [if_neg (Ne.symm he)]
    · rw [if_neg h1]

theorem startsWith_two_idx0 (x1 x2 : Char) (l : List Char)
    (h : ∀ c ∈ l.take 1, c ≠ x1) : startsWith [x1, x2] l = false := by
  cases l with
  | nil => rfl
  | cons d ls =>
    show (if x1 = d then startsWith [x2] ls else false) = false
    have hd : d ≠ x1 := h d (by simp [List.take])
    rw [if_neg (Ne.symm hd)]

/-- For a three-character pattern whose last character appears neither in `a`
nor among the first two characters of `b`, no occurrence starts inside `a`. -/
theorem containsSub_append_idx2 (x0 x1 x2 : Char) (a b : List Char)
    (ha : ∀ c ∈ a, c ≠ x2) (hb : ∀ c ∈ b.take 2, c ≠ x2) :
    containsSub [x0, x1, x2] (a ++ b) = containsSub [x0, x1, x2] b := by
  induction a with
  | nil => rfl
  | cons c t ih =>
    have ht : ∀ d ∈ t, d ≠ x2 := fun d hd => ha d (by simp [hd])
    show (startsWith [x0, x1, x2] (c :: (t ++ b)) || containsSub [x0, x1, x2] (t ++ b)) = _
    have hs : startsWith [x0, x1, x2] (c :: (t ++ b)) = false := by
      show (if x0 = c then startsWith [x1, x2] (t ++ b) else false) = false
      by_cases h0 : x0 = c
      · rw [if_pos h0]
        exact startsWith_two_idx1 x1 x2 _
          (fun d hd => (mem_take_append hd).elim (ht d) (hb d))
      · rw [if_neg h0]
    rw [hs, Bool.false_or, ih ht]

/-- For a three-character pattern whose middle character appears neither in `a`
nor as the first character of `b`, no occurrence starts inside `a`. -/
theorem containsSub_append_idx1 (x0 x1 x2 : Char) (a b : List Char)
    (ha : ∀ c ∈ a, c ≠ x1) (hb : ∀ c ∈ b.take 1, c ≠ x1) :
    containsSub [x0, x1, x2] (a ++ b) = containsSub [x0, x1, x2] b := by
  induction a with
  | nil => rfl
  | cons c t ih =>
    have ht : ∀ d ∈ t, d ≠ x1 := fun d hd => ha d (by simp [hd])
    show (startsWith [x0, x1, x2] (c :: (t ++ b)) || containsSub [x0, x1, x2] (t ++ b)) = _
    have hs : startsWith [x0, x1, x2] (c :: (t ++ b)) = false := by
      show (if x0 = c then startsWith [x1, x2] (t ++ b) else false) = false
      by_cases h0 : x0 = c
      · rw [if_pos h0]
        exact startsWith_two_idx0 x1 x2 _
          (fun d hd => (mem_take_append hd).elim (ht d) (hb d))
      · rw [if_neg h0]
    rw [hs, Bool.false_or, ih ht]

end PageMonitor

namespace PageMonitor

/-! ### Facts about the matcher output -/

theorem mem_takeWhile_pred {p : Char → Bool} :
    ∀ {l : List Char} {c : Char}, c ∈ l.takeWhile p → p c = true := by
  intro l
  induction l with
  | nil => intro c h; simp [List.takeWhile] at h
  | cons a t ih =>
    intro c h
    rw [List.takeWhile_cons] at h
    by_cases ha : p a
    · rw [if_pos ha] at h
      rcases List.mem_cons.mp h with rfl | h2
      · exact ha
      · exact ih h2
    · rw [if_neg ha] at h
      simp at h

theorem trimList_subset {l : List Char} {c : Char} (h : c ∈ trimList l) : c ∈ l := by
  unfold trimList at h
  rw [List.mem_reverse] at h
  have h2 : c ∈ (l.dropWhile pyIsSpace).reverse := (List.dropWhile_sublist pyIsSpace).mem h
  rw [List.mem_reverse] at h2
  exact (List.dropWhile_sublist pyIsSpace).mem h2

theorem dropLit_some_length :
    ∀ {p s r : List Char}, dropLit p s = some r → r.length + p.length = s.length := by
  intro p
  induction p with
  | nil => intro s r h; cases h; simp [dropLit]
  | cons a ps ih =>
    intro s r h
    cases s with
    | nil => simp [dropLit] at h
    | cons c cs =>
      rw [dropLit] at h
      by_cases hc : c = a
      · rw [if_pos hc] at h
        have := ih h
        simp only [List.length_cons]
        omega
      · rw [if_neg hc] at h
        simp at h

theorem trySep_facts {l msg r : List Char} (h : trySep l = some (msg, r)) :
    (∀ c ∈ msg, pyIsWordOrSpace c = true) ∧ r.length ≤ l.length := by
  unfold trySep at h
  cases hd : dropLit ['-', '-', '-', '-'] l with
  | none => rw [hd] at h; simp at h
  | some l2 =>
    rw [hd] at h
    have hlen := dropLit_some_length hd
    by_cases hm : l2.takeWhile pyIsWordOrSpace = []
    · simp [hm] at h
    · simp only [if_neg hm, Option.some.injEq, Prod.mk.injEq] at h
      obtain ⟨h1, h2⟩ := h
      subst h1
      subst h2
      constructor
      · intro c hc
        exact mem_takeWhile_pred hc
      · have : (l2.drop (l2.takeWhile pyIsWordOrSpace).length).length ≤ l2.length := by
          rw [List.length_drop]; omega
        simp only [List.length_cons] at hlen
        omega

theorem gapLoop_facts :
    ∀ {l msg r : List Char}, gapLoop l = some (msg, r) →
      (∀ c ∈ msg, pyIsWordOrSpace c = true) ∧ r.length < l.length := by
  intro l
  induction l with
  | nil => intro msg r h; simp [gapLoop] at h
  | cons c cs ih =>
    intro msg r h
    rw [gapLoop] at h
    by_cases hc : c = '\n'
    · rw [if_pos hc] at h; simp at h
    · rw [if_neg hc] at h
      cases hts : trySep cs with
      | some x =>
        rw [hts] at h
        cases h
        have := trySep_facts hts
        exact ⟨this.1, by have := this.2; simp only [List.length_cons]; omega⟩
      | none =>
        rw [hts] at h
        have := ih h
        exact ⟨this.1, by have := this.2; simp only [List.length_cons]; omega⟩

theorem tagLoopAux_facts :
    ∀ {t : Nat} {tagMax rest tag msg r : List Char},
      tagLoopAux tagMax rest t = some (tag, msg, r) →
      (∀ c ∈ tag, c ∈ tagMax) ∧ (∀ c ∈ msg, pyIsWordOrSpace c = true) ∧
        r.length < tagMax.length + rest.length := by
  intro t
  induction t with
  | zero => intro tagMax rest tag msg r h; simp [tagLoopAux] at h
  | succ t ih =>
    intro tagMax rest tag msg r h
    rw [tagLoopAux] at h
    cases hg : gapLoop (tagMax.drop (t + 1) ++ rest) with
    | some x =>
      rw [hg] at h
      cases h
      have hf := gapLoop_facts hg
      refine ⟨fun c hc => List.take_subset _ _ hc, hf.1, ?_⟩
      have := hf.2
      have hlen : (tagMax.drop (t + 1) ++ rest).length ≤ tagMax.length + rest.length := by
        rw [List.length_append, List.length_drop]; omega
      omega
    | none =>
      rw [hg] at h
      exact ih h

theorem tryMatch_facts {s tag msg r : List Char} (h : tryMatch s = some (tag, msg, r)) :
    (∀ c ∈ tag, pyIsSpace c = false) ∧ (∀ c ∈ msg, pyIsWordOrSpace c = true) ∧
      r.length < s.length := by
  unfold tryMatch at h
  cases hd : dropLit "TAG ID:".data s with
  | none => rw [hd] at h; simp at h
  | some s1 =>
    rw [hd] at h
    have hlen1 := dropLit_some_length hd
    simp only at h
    by_cases hmax : (s1.dropWhile pyIsSpace).takeWhile (fun c => !pyIsSpace c) = []
    · rw [if_pos hmax] at h; simp at h
    · rw [if_neg hmax] at h
      have hf := tagLoopAux_facts h
      refine ⟨?_, hf.2.1, ?_⟩
      · intro c hc
        have := mem_takeWhile_pred (hf.1 c hc)
        simpa using this
      · have h2 := hf.2.2
        have hd2 : ((s1.dropWhile pyIsSpace).drop
            ((s1.dropWhile pyIsSpace).takeWhile (fun c => !pyIsSpace c)).length).length =
            (s1.dropWhile pyIsSpace).length -
              ((s1.dropWhile pyIsSpace).takeWhile (fun c => !pyIsSpace c)).length := by
          rw [List.length_drop]
        have hw : (s1.dropWhile pyIsSpace).length ≤ s1.length :=
          (List.dropWhile_sublist pyIsSpace).length_le
        have ht : ((s1.dropWhile pyIsSpace).takeWhile (fun c => !pyIsSpace c)).length ≤
            (s1.dropWhile pyIsSpace).length :=
          (List.takeWhile_sublist _).length_le
        have h7 : ("TAG ID:".data).length = 7 := rfl
        omega

end PageMonitor

namespace PageMonitor

/-- Every element of the scan satisfies the tag/message character facts and
starts at or after the scan position. -/
theorem findAllIdxAux_mem :
    ∀ {fuel p : Nat} {s : List Char} {x : Nat × List Char × List Char},
      x ∈ findAllIdxAux fuel p s →
      (∀ c ∈ x.2.1, pyIsSpace c = false) ∧ (∀ c ∈ x.2.2, pyIsWordOrSpace c = true) ∧
        p ≤ x.1 := by
  intro fuel
  induction fuel with
  | zero => intro p s x h; simp [findAllIdxAux] at h
  | succ fuel ih =>
    intro p s x h
    cases s with
    | nil => simp [findAllIdxAux] at h
    | cons c cs =>
      rw [findAllIdxAux] at h
      cases hm : tryMatch (c :: cs) with
      | some y =>
        obtain ⟨tag0, msg0, rest0⟩ := y
        rw [hm] at h
        rcases List.mem_cons.mp h with rfl | h2
        · have hf := tryMatch_facts hm
          exact ⟨hf.1, hf.2.1, Nat.le_refl _⟩
        · have := ih h2
          exact ⟨this.1, this.2.1, Nat.le_trans (Nat.le_add_right _ _) this.2.2⟩
      | none =>
        rw [hm] at h
        have := ih h
        exact ⟨this.1, this.2.1, Nat.le_trans (Nat.le_add_right _ _) this.2.2⟩

/-- The match start positions produced by the scan are strictly increasing. -/
theorem findAllIdxAux_pos_sorted :
    ∀ {fuel p : Nat} {s : List Char},
      List.Pairwise (· < ·) ((findAllIdxAux fuel p s).map Prod.fst) := by
  intro fuel
  induction fuel with
  | zero => intro p s; simp [findAllIdxAux]
  | succ fuel ih =>
    intro p s
    cases s with
    | nil => simp [findAllIdxAux]
    | cons c cs =>
      rw [findAllIdxAux]
      cases hm : tryMatch (c :: cs) with
      | some y =>
        obtain ⟨tag0, msg0, rest0⟩ := y
        simp only [List.map_cons, List.pairwise_cons]
        constructor
        · intro q hq
          obtain ⟨x, hx, rfl⟩ := List.mem_map.mp hq
          have hge := (findAllIdxAux_mem hx).2.2
          have hlt := (tryMatch_facts hm).2.2
          simp only [List.length_cons] at hlt hge
          omega
        · exact ih
      | none => exact ih

theorem mem_enumFrom_snd {α : Type} :
    ∀ {l : List α} {k : Nat} {x : Nat × α}, x ∈ List.enumFrom k l → x.2 ∈ l := by
  intro l
  induction l with
  | nil => intro k x h; simp at h
  | cons a t ih =>
    intro k x h
    rw [List.enumFrom_cons] at h
    rcases List.mem_cons.mp h with rfl | h2
    · simp
    · exact List.mem_cons_of_mem _ (ih h2)

/-- Character facts for every record produced by `parse_content`: the tag has
no whitespace character and the message only word-or-whitespace characters. -/
theorem parse_content_char_facts {s : List Char} {now : Nat} {e : Entry}
    (he : e ∈ parse_content s now) :
    (∀ c ∈ e.tag_id, pyIsSpace c = false) ∧ (∀ c ∈ e.message, pyIsWordOrSpace c = true) := by
  unfold parse_content at he
  obtain ⟨x, hx, rfl⟩ := List.mem_map.mp he
  rw [List.enum_eq_enumFrom] at hx
  have hx2 : x.2 ∈ findAll s := mem_enumFrom_snd hx
  obtain ⟨y, hy, hyx⟩ := List.mem_map.mp hx2
  have hf := findAllIdxAux_mem hy
  constructor
  · intro c hc
    simp only at hc
    rw [← hyx] at hc
    exact hf.1 c hc
  · intro c hc
    simp only at hc
    have : c ∈ x.2.2 := trimList_subset hc
    rw [← hyx] at this
    exact hf.2.1 c this

/-! ### Digit facts -/

theorem digitChar_isDigit {n : Nat} (h : n < 10) : (Nat.digitChar n).isDigit = true := by
  interval_cases n <;> decide

theorem natDigitsAux_mem :
    ∀ {fuel n : Nat} {acc : List Char} {c : Char},
      c ∈ natDigitsAux fuel n acc → c.isDigit = true ∨ c ∈ acc := by
  intro fuel
  induction fuel with
  | zero => intro n acc c h; exact Or.inr h
  | succ fuel ih =>
    intro n acc c h
    rw [natDigitsAux] at h
    by_cases hn : n < 10
    · rw [if_pos hn] at h
      rcases List.mem_cons.mp h with rfl | h2
      · exact Or.inl (digitChar_isDigit hn)
      · exact Or.inr h2
    · rw [if_neg hn] at h
      rcases ih h with h1 | h2
      · exact Or.inl h1
      · rcases List.mem_cons.mp h2 with rfl | h3
        · exact Or.inl (digitChar_isDigit (Nat.mod_lt _ (by omega)))
        · exact Or.inr h3

theorem natDigits_isDigit {n : Nat} {c : Char} (h : c ∈ natDigits n) : c.isDigit = true := by
  rcases natDigitsAux_mem h with h1 | h2
  · exact h1
  · simp at h2

theorem isDigit_ne {c d : Char} (h : c.isDigit = true) (hd : d.isDigit = false) : c ≠ d := by
  intro he
  rw [he, hd] at h
  exact Bool.false_ne_true h

end PageMonitor

namespace PageMonitor

/-! ### The serialized dict never contains a `TAG ID: ` marker -/

theorem seg_msg_take_two (r : List Char) : (seg_msg ++ r).take 2 = [qc, ','] := rfl

theorem seg_ts_take_one (r : List Char) : (seg_ts ++ r).take 1 = [qc] := rfl

/-- The three-character block `D: ` of the marker occurs nowhere in the
serialized dict: the fixed fragments and the digit runs contain no `D`, a
tag value contains no blank (so the blank of the pattern cannot fall inside
or just after it), a message value contains no colon, and the concrete tail
(timezone repr and closing brace) is checked by evaluation. -/
theorem strDict_no_dcs (e : Entry)
    (ht : ∀ c ∈ e.tag_id, c ≠ ' ')
    (hm : ∀ c ∈ e.message, c ≠ ':') :
    containsSub ['D', ':', ' '] (strDict e) = false := by
  have hdig : ∀ n : Nat, ∀ c ∈ natDigits n, c ≠ 'D' :=
    fun n c hc => isDigit_ne (natDigits_isDigit hc) (by decide)
  have htake2 : ∀ c ∈ ([qc, ','] : List Char), c ≠ ' ' := by decide
  have htake1 : ∀ c ∈ ([qc] : List Char), c ≠ ':' := by decide
  unfold strDict
  rw [containsSub_append_head 'D' [':', ' '] seg_id _ (by decide)]
  rw [containsSub_append_head 'D' [':', ' '] (natDigits e.id) _ (hdig e.id)]
  rw [containsSub_append_head 'D' [':', ' '] seg_tag _ (by decide)]
  rw [containsSub_append_idx2 'D' ':' ' ' e.tag_id _ ht
    (fun c hc => htake2 c (seg_msg_take_two _ ▸ hc))]
  rw [containsSub_append_head 'D' [':', ' '] seg_msg _ (by decide)]
  rw [containsSub_append_idx1 'D' ':' ' ' e.message _ hm
    (fun c hc => htake1 c (seg_ts_take_one _ ▸ hc))]
  rw [containsSub_append_head 'D' [':', ' '] seg_ts _ (by decide)]
  rw [containsSub_append_head 'D' [':', ' '] (natDigits e.timestamp) _ (hdig e.timestamp)]
  decide

/-- No pattern `"TAG ID: " ++ t` of the duplicate check occurs in the
serialized dict of a record whose tag has no blank and whose message has no
colon. -/
theorem strDict_no_marker (e : Entry)
    (ht : ∀ c ∈ e.tag_id, c ≠ ' ')
    (hm : ∀ c ∈ e.message, c ≠ ':')
    (t : List Char) :
    containsSub ("TAG ID: ".data ++ t) (strDict e) = false := by
  cases hcs : containsSub ("TAG ID: ".data ++ t) (strDict e) with
  | false => rfl
  | true =>
    exfalso
    have h2 : containsSub (['T', 'A', 'G', ' ', 'I'] ++ (['D', ':', ' '] ++ t))
        (strDict e) = true := hcs
    have h3 := containsSub_mono _ _ _ _ h2
    rw [strDict_no_dcs e ht hm] at h3
    exact Bool.false_ne_true h3

/-- Every record produced by `parse_content` has a blank-free tag and a
colon-free message. -/
theorem parse_entry_safe {s : List Char} {now : Nat} {e : Entry}
    (he : e ∈ parse_content s now) :
    (∀ c ∈ e.tag_id, c ≠ ' ') ∧ (∀ c ∈ e.message, c ≠ ':') := by
  have hf := parse_content_char_facts he
  constructor
  · intro c hc heq
    have h1 := hf.1 c hc
    rw [heq] at h1
    exact absurd h1 (by decide)
  · intro c hc heq
    have h1 := hf.2 c hc
    rw [heq] at h1
    exact absurd h1 (by decide)

/-! ### What `save_content_to_db` can put into the table -/

theorem foldl_dedup_mem :
    ∀ (l : List Entry) (db : List PageContent) (pc : PageContent),
      pc ∈ l.foldl
        (fun db e =>
          if exists_by_tag db e.tag_id then db
          else db ++ [{ id := db.length + 1, content := strDict e, timestamp := e.timestamp }])
        db →
      pc ∈ db ∨ ∃ e ∈ l, pc.content = strDict e := by
  intro l
  induction l with
  | nil => intro db pc h; exact Or.inl h
  | cons e l ih =>
    intro db pc h
    rw [List.foldl_cons] at h
    rcases ih _ _ h with h1 | ⟨e2, he2, hc⟩
    · cases hex : exists_by_tag db e.tag_id with
      | true =>
        rw [if_pos hex] at h1
        exact Or.inl h1
      | false =>
        rw [if_neg (by simp [hex])] at h1
        rcases List.mem_append.mp h1 with h2 | h2
        · exact Or.inl h2
        · rcases List.mem_cons.mp h2 with rfl | h3
          · exact Or.inr ⟨e, List.mem_cons_self _ _, rfl⟩
          · simp at h3
    · exact Or.inr ⟨e2, List.mem_cons_of_mem _ he2, hc⟩

/-- Every row of `save_content_to_db db c now` is an old row or the
serialization of a record parsed from `c`. -/
theorem save_mem {db : List PageContent} {c : List Char} {now : Nat} {pc : PageContent}
    (h : pc ∈ save_content_to_db db c now) :
    pc ∈ db ∨ ∃ e ∈ parse_content c now, pc.content = strDict e :=
  foldl_dedup_mem _ _ _ h

/-- In every reachable table state, no row content contains any pattern
`"TAG ID: " ++ t` of the duplicate check. -/
theorem reachable_no_marker {db : List PageContent} (h : Reachable db) :
    ∀ pc ∈ db, ∀ t : List Char, containsSub ("TAG ID: ".data ++ t) pc.content = false := by
  induction h with
  | base => intro pc hpc; simp at hpc
  | step db c now hr ih =>
    intro pc hpc t
    rcases save_mem hpc with h1 | ⟨e, he, hc⟩
    · exact ih pc h1 t
    · rw [hc]
      have hs := parse_entry_safe he
      exact strDict_no_marker e hs.1 hs.2 t

end PageMonitor

namespace PageMonitor

/-! ### Decomposition of a successful gap match (for the newline analysis) -/

theorem dropLit_decomp : ∀ {p s r : List Char}, dropLit p s = some r → s = p ++ r := by
  intro p
  induction p with
  | nil => intro s r h; cases h; rfl
  | cons a ps ih =>
    intro s r h
    cases s with
    | nil => simp [dropLit] at h
    | cons c cs =>
      rw [dropLit] at h
      by_cases hc : c = a
      · subst hc
        rw [if_pos rfl] at h
        rw [List.cons_append, ih h]
      · rw [if_neg hc] at h
        simp at h

theorem trySep_decomp {l msg r : List Char} (h : trySep l = some (msg, r)) :
    ∃ l2, l = ['-', '-', '-', '-'] ++ l2 ∧ msg = l2.takeWhile pyIsWordOrSpace ∧
      r = l2.drop msg.length := by
  unfold trySep at h
  cases hd : dropLit ['-', '-', '-', '-'] l with
  | none => rw [hd] at h; simp at h
  | some l2 =>
    rw [hd] at h
    by_cases hm : l2.takeWhile pyIsWordOrSpace = []
    · simp [hm] at h
    · simp only [if_neg hm, Option.some.injEq, Prod.mk.injEq] at h
      obtain ⟨h1, h2⟩ := h
      subst h1
      subst h2
      exact ⟨l2, dropLit_decomp hd, rfl, rfl⟩

/-- A successful lazy-gap match splits its input into a nonempty gap that
contains no newline, the separator, and the tail holding the message. -/
theorem gapLoop_decomp :
    ∀ {l msg r : List Char}, gapLoop l = some (msg, r) →
      ∃ g l2, l = g ++ (['-', '-', '-', '-'] ++ l2) ∧ g ≠ [] ∧ (∀ c ∈ g, c ≠ '\n') ∧
        msg = l2.takeWhile pyIsWordOrSpace := by
  intro l
  induction l with
  | nil => intro msg r h; simp [gapLoop] at h
  | cons c cs ih =>
    intro msg r h
    rw [gapLoop] at h
    by_cases hc : c = '\n'
    · rw [if_pos hc] at h; simp at h
    · rw [if_neg hc] at h
      cases hts : trySep cs with
      | some x =>
        rw [hts] at h
        cases h
        obtain ⟨l2, hcs, hmsg, _⟩ := trySep_decomp hts
        exact ⟨[c], l2, by rw [hcs]; rfl, by simp, by simpa using hc, hmsg⟩
      | none =>
        rw [hts] at h
        obtain ⟨g, l2, hcs, hg, hgn, hmsg⟩ := ih h
        exact ⟨c :: g, l2, by rw [List.cons_append, hcs], by simp,
          fun d hd => (List.mem_cons.mp hd).elim (fun hdc => hdc ▸ hc) (hgn d), hmsg⟩

/-! ### Sequence indices are 1..N -/

theorem enumFrom_map_succ_fst {α : Type} :
    ∀ (l : List α) (k : Nat),
      (List.enumFrom k l).map (fun p => p.1 + 1) = List.range' (k + 1) l.length := by
  intro l
  induction l with
  | nil => intro k; rfl
  | cons a t ih =>
    intro k
    rw [List.enumFrom_cons, List.map_cons, ih]
    rfl

end PageMonitor

namespace PageMonitor

/-! ### The claims -/

/-- C1: the spec asserts that after `save_content_to_db` appends a record with
tag_id "42", `exists_by_tag "42"` (and, via the substring imprecision,
`exists_by_tag "4"`) returns true.  The code stores `str(entry)` — a dict repr
that never contains the substring `TAG ID: 42` — so the LIKE check finds
nothing: both lookups return false after the append.  This theorem evaluates
the code at the failing input: the content parses to one record with tag "42",
the save appends one row, and both existence checks nevertheless yield false. -/
theorem claim_C1 :
    (parse_content ("TAG ID: 42 x ---- hello".data) 0).map Entry.tag_id = ["42".data] ∧
    (save_content_to_db [] ("TAG ID: 42 x ---- hello".data) 0).length = 1 ∧
    exists_by_tag (save_content_to_db [] ("TAG ID: 42 x ---- hello".data) 0) ("42".data)
      = false ∧
    exists_by_tag (save_content_to_db [] ("TAG ID: 42 x ---- hello".data) 0) ("4".data)
      = false :=
  ⟨by decide, by decide, by decide, by decide⟩

/-- C2: running one full poll cycle twice on the identical raw body yields the
same state as running it once — the second cycle's change check compares the
stripped body against the cache written by the first cycle and skips, so no
entry is appended by the second run. -/
theorem claim_C2 (st : MonitorState) (body : List Char) (n1 n2 : Nat) :
    monitor_cycle (monitor_cycle st 200 body n1) 200 body n2 =
      monitor_cycle st 200 body n1 := by
  unfold monitor_cycle
  by_cases h : trimList body = st.last_content
  · simp [h]
  · simp [h]

/-- C3: every row that `save_content_to_db` adds has as content the
serialization `strDict` (the Python `str` of the parsed dict), and that
serialization never contains `"TAG ID: " ++ t` for any `t` — so the
duplicate-check pattern can never match an entry stored by this pipeline. -/
theorem claim_C3 (s : List Char) (now : Nat) :
    (∀ (db : List PageContent) (pc : PageContent), pc ∈ save_content_to_db db s now →
      pc ∈ db ∨ ∃ e ∈ parse_content s now, pc.content = strDict e) ∧
    (∀ e ∈ parse_content s now, ∀ t : List Char,
      containsSub ("TAG ID: ".data ++ t) (strDict e) = false) := by
  constructor
  · intro db pc h
    exact save_mem h
  · intro e he t
    have hs := parse_entry_safe he
    exact strDict_no_marker e hs.1 hs.2 t

/-- Witness for C3 at a concrete input: the row written for the content
`TAG ID: 42 x ---- hello` is the serialized dict, and that dict does not
contain the pattern `TAG ID: 42`. -/
theorem claim_C3_witness :
    ((⟨1, strDict ⟨1, "42".data, "hello".data, 0⟩, 0⟩ : PageContent)
        ∈ ([] : List PageContent) ∨
      ∃ e ∈ parse_content ("TAG ID: 42 x ---- hello".data) 0,
        (⟨1, strDict ⟨1, "42".data, "hello".data, 0⟩, 0⟩ : PageContent).content
          = strDict e) ∧
    containsSub ("TAG ID: ".data ++ "42".data)
      (strDict ⟨1, "42".data, "hello".data, 0⟩) = false :=
  ⟨(claim_C3 ("TAG ID: 42 x ---- hello".data) 0).1 [] _ (by decide),
   (claim_C3 ("TAG ID: 42 x ---- hello".data) 0).2
     ⟨1, "42".data, "hello".data, 0⟩ (by decide) ("42".data)⟩

/-- C4: in every table state reachable from the empty store by
`save_content_to_db` runs, for any tag `t` at most one row's content contains
the pattern `"TAG ID: " ++ t` — no two stored entries share a tag pattern.
(It holds degenerately: no pipeline-written row contains any such pattern at
all, since the stored dict repr never embeds the `TAG ID: ` marker.) -/
theorem claim_C4 {db : List PageContent} (h : Reachable db) (t : List Char) :
    (db.filter (fun pc => containsSub ("TAG ID: ".data ++ t) pc.content)).length ≤ 1 := by
  have hall := reachable_no_marker h
  have hnil : db.filter (fun pc => containsSub ("TAG ID: ".data ++ t) pc.content) = [] := by
    rw [List.filter_eq_nil_iff]
    intro pc hpc
    simp only [Bool.not_eq_true]
    exact hall pc hpc t
  rw [hnil]
  simp

/-- Witness for C4 on the concrete reachable state obtained by one save. -/
theorem claim_C4_witness :
    ((save_content_to_db [] ("TAG ID: 42 x ---- hello".data) 0).filter
      (fun pc => containsSub ("TAG ID: ".data ++ "42".data) pc.content)).length ≤ 1 :=
  claim_C4 (Reachable.step _ _ _ Reachable.base) ("42".data)

/-- C5 counterexample: on `TAG ID: a TAG ID: b ---- msg` the code yields one
record whose tag is "a", not "b" as the claim states — matching is leftmost,
so the first marker wins and the lazy gap spans the second marker. -/
theorem claim_C5_cex :
    (parse_content ("TAG ID: a TAG ID: b ---- msg".data) 0).map Entry.tag_id = ["a".data] ∧
    ¬ (parse_content ("TAG ID: a TAG ID: b ---- msg".data) 0).map Entry.tag_id
        = ["b".data] :=
  ⟨by decide, by decide⟩

/-- C5 (amended): the input yields exactly one record, with tag_id "a"
(the leftmost marker) and message "msg". -/
theorem claim_C5 :
    parse_content ("TAG ID: a TAG ID: b ---- msg".data) 0 =
      [{ id := 1, tag_id := "a".data, message := "msg".data, timestamp := 0 }] := by
  decide

/-- C6 counterexample: on `noise TAG ID: abc123 blah ---- hello world\nmore`
the record's message is not "hello world" — the greedy `[\w\s]+` class
includes the newline and swallows "more". -/
theorem claim_C6_cex :
    parse_content ("noise TAG ID: abc123 blah ---- hello world\nmore".data) 0 ≠
      [{ id := 1, tag_id := "abc123".data, message := "hello world".data, timestamp := 0 }] := by
  decide

/-- C6 (amended): exactly one record with sequence index 1, tag_id "abc123",
and message "hello world\nmore" (whitespace-trimmed at the ends only). -/
theorem claim_C6 :
    parse_content ("noise TAG ID: abc123 blah ---- hello world\nmore".data) 0 =
      [{ id := 1, tag_id := "abc123".data, message := "hello world\nmore".data,
         timestamp := 0 }] := by
  decide

/-- C7 counterexample: the spec says the gap between the tag token and the
separator may span lines; with a newline inside the gap the code produces no
record at all. -/
theorem claim_C7_cex :
    parse_content ("TAG ID: x a\nb ---- msg".data) 0 = [] := by
  decide

/-- C7 (amended): the gap can never span a line break — every successful gap
match splits its input into a nonempty newline-free gap, the separator and
the tail; concretely, the newline input yields no record while the same text
with the newline replaced by a blank yields one. -/
theorem claim_C7 :
    (∀ l msg r : List Char, gapLoop l = some (msg, r) →
      ∃ g l2, l = g ++ (['-', '-', '-', '-'] ++ l2) ∧ g ≠ [] ∧ ∀ c ∈ g, c ≠ '\n') ∧
    parse_content ("TAG ID: x a\nb ---- msg".data) 0 = [] ∧
    parse_content ("TAG ID: x a b ---- msg".data) 0 =
      [{ id := 1, tag_id := "x".data, message := "msg".data, timestamp := 0 }] := by
  refine ⟨?_, by decide, by decide⟩
  intro l msg r h
  obtain ⟨g, l2, h1, h2, h3, _⟩ := gapLoop_decomp h
  exact ⟨g, l2, h1, h2, h3⟩

/-- Witness for C7's gap decomposition at a concrete successful match. -/
theorem claim_C7_witness :
    ∃ g l2, (" a b ---- msg".data : List Char) = g ++ (['-', '-', '-', '-'] ++ l2) ∧
      g ≠ [] ∧ ∀ c ∈ g, c ≠ '\n' :=
  claim_C7.1 (" a b ---- msg".data) (" msg".data) [] (by decide)

end PageMonitor

namespace PageMonitor

/-- C8 counterexample: the cache holds the previous cycle's stripped body
`TAG ID: t1 x ---- hello`; the new raw body carries a trailing blank, so the
two differ pre-trim — yet the cycle is a complete no-op (state unchanged),
even though parsing the body would have stored a record (third conjunct).
This contradicts "for every pair of bodies that differ pre-trim, parsing
proceeds and the cache is updated". -/
theorem claim_C8_cex :
    monitor_cycle { last_content := "TAG ID: t1 x ---- hello".data, db := [] } 200
        ("TAG ID: t1 x ---- hello ".data) 0 =
      { last_content := "TAG ID: t1 x ---- hello".data, db := [] } ∧
    ("TAG ID: t1 x ---- hello ".data : List Char) ≠ "TAG ID: t1 x ---- hello".data ∧
    save_content_to_db [] ("TAG ID: t1 x ---- hello".data) 0 ≠ [] :=
  ⟨by decide, by decide, by decide⟩

/-- C8 (amended): change detection compares the STRIPPED fetched body against
the cached previous stripped body by exact equality — if they agree the cycle
is a no-op (even when the raw bodies differ pre-trim), and if they differ the
cache is set to the stripped body and the save pipeline runs on it. -/
theorem claim_C8 (st : MonitorState) (body : List Char) (now : Nat) :
    (trimList body = st.last_content → monitor_cycle st 200 body now = st) ∧
    (trimList body ≠ st.last_content →
      monitor_cycle st 200 body now =
        { last_content := trimList body,
          db := save_content_to_db st.db (trimList body) now }) := by
  constructor
  · intro h
    simp [monitor_cycle, h]
  · intro h
    simp [monitor_cycle, h]

/-- Witness for C8 at concrete inputs: a body equal to the cache after
stripping is skipped; a stripped body differing from the cache updates the
cache and runs the save. -/
theorem claim_C8_witness :
    monitor_cycle { last_content := "x".data, db := [] } 200 (" x ".data) 0 =
      { last_content := "x".data, db := [] } ∧
    monitor_cycle { last_content := "x".data, db := [] } 200 ("y".data) 0 =
      { last_content := trimList ("y".data),
        db := save_content_to_db [] (trimList ("y".data)) 0 } :=
  ⟨(claim_C8 { last_content := "x".data, db := [] } (" x ".data) 0).1 (by decide),
   (claim_C8 { last_content := "x".data, db := [] } ("y".data) 0).2 (by decide)⟩

/-- C9: the read endpoint fails with the 404 error "No content found" exactly
when the table is empty; and when one save from the empty table appended
exactly one row, the same query returns the one-element list carrying that
row's content. -/
theorem claim_C9 :
    (∀ db : List PageContent,
      ((∃ msg, get_saved_content db = Except.error msg) ↔ db = [])) ∧
    (∀ (c : List Char) (now : Nat) (e : PageContent),
      save_content_to_db [] c now = [e] →
      get_saved_content (save_content_to_db [] c now) =
        Except.ok [{ id := e.id, content := e.content, timestamp := e.timestamp }]) := by
  constructor
  · intro db
    constructor
    · rintro ⟨msg, hmsg⟩
      by_contra hne
      rw [get_saved_content, if_neg hne] at hmsg
      exact Except.noConfusion hmsg
    · rintro rfl
      exact ⟨"No content found", rfl⟩
  · intro c now e h
    rw [h]
    rfl

/-- Witness for C9: the empty table errors, and after the save of
`TAG ID: 42 x ---- hello` into the empty table the query returns the single
stored row. -/
theorem claim_C9_witness :
    (∃ msg, get_saved_content ([] : List PageContent) = Except.error msg) ∧
    get_saved_content (save_content_to_db [] ("TAG ID: 42 x ---- hello".data) 0) =
      Except.ok [(⟨1, strDict ⟨1, "42".data, "hello".data, 0⟩, 0⟩ : ContentItem)] :=
  ⟨(claim_C9.1 []).mpr rfl,
   claim_C9.2 ("TAG ID: 42 x ---- hello".data) 0
     ⟨1, strDict ⟨1, "42".data, "hello".data, 0⟩, 0⟩ (by decide)⟩

/-- C10: for every raw text, `parse_content` returns one record per match of
the scan, with sequence indices exactly the strictly increasing run 1..N, the
match start positions strictly increasing left to right, and the empty list
when there is no match. -/
theorem claim_C10 (s : List Char) (now : Nat) :
    (parse_content s now).map Entry.id = List.range' 1 (findAllIdx s).length ∧
    (parse_content s now).length = (findAllIdx s).length ∧
    List.Pairwise (· < ·) ((findAllIdx s).map Prod.fst) ∧
    (findAllIdx s = [] → parse_content s now = []) := by
  refine ⟨?_, ?_, findAllIdxAux_pos_sorted, ?_⟩
  · have h1 : (parse_content s now).map Entry.id =
        ((findAll s).enum).map (fun p => p.1 + 1) := by
      unfold parse_content
      rw [List.map_map]
      rfl
    rw [h1, List.enum_eq_enumFrom, enumFrom_map_succ_fst]
    simp [findAll]
  · simp [parse_content, findAll, List.enum_eq_enumFrom]
  · intro h
    simp [parse_content, findAll, h]

/-- Witness for C10's zero-span clause on a concrete markerless text. -/
theorem claim_C10_witness :
    parse_content ("xyz".data) 0 = [] :=
  (claim_C10 ("xyz".data) 0).2.2.2 (by decide)

end PageMonitor
